import Mathlib

/-!
Verification development for the codebase-ai-assistant repository.

The Lean definitions below are a shallow embedding of the Python sources
under src/codebase-ai-assistant (utils/ast_parser.py,
services/impact_detector.py, services/repository_analyzer.py).
Python strings are modelled as Lean String, Python lists as List, Python
None-able values as Option, Python sets as duplicate-free lists (their
enumeration order is unspecified in Python, and no claim depends on it;
set-valued claims are stated through toFinset), Python float scores as
Rat (all scores are exact multiples of 1/2, so binary floating point and
rational arithmetic agree on them), and a Python function that can raise
as a function into Except.  File-system and network effects (reading a
file from disk, git, the database client, the external text-generation
service) are modelled by passing their results in as explicit arguments.
-/

/-! ## Python string primitives

Lean's own String operations (toLower, split, splitOn, replace) are
implemented with byte-position loops that the kernel cannot reduce, so the
Python string operations used by the sources are re-implemented here by
structural recursion on the character list of the string.  Unicode-only
differences (Python str.lower handles non-ASCII letters, Lean
Char.toLower is ASCII-only) are outside the scope of the claims, which
only involve ASCII identifiers and paths. -/

/-- Python s.lower() (ASCII). -/
def pyLower (s : String) : String := String.mk (s.data.map Char.toLower)

/-- Python len(s): number of characters. -/
def pyLen (s : String) : Nat := s.data.length

/-- Does the character list hay start with the character list needle? -/
def listStartsWith : List Char → List Char → Bool
  | [], _ => true
  | _ :: _, [] => false
  | a :: as, b :: bs => (a = b) && listStartsWith as bs

/-- Does the character list hay contain the character list needle as a
contiguous run?  (Python substring containment.) -/
def listSubstr (needle : List Char) : List Char → Bool
  | [] => needle.isEmpty
  | c :: rest => listStartsWith needle (c :: rest) || listSubstr needle rest

/-- Python (needle in hay) on strings: substring containment. -/
def pyStrIn (needle hay : String) : Bool := listSubstr needle.data hay.data

/-- Python s.startswith(t). -/
def pyStartsWith (s t : String) : Bool := listStartsWith t.data s.data

/-- Helper for pySplitWs: words of a character list, splitting on
whitespace and dropping empty pieces; cur is the reversed current word. -/
def wordsAux (p : Char → Bool) : List Char → List Char → List (List Char)
  | [], cur => if cur.isEmpty then [] else [cur.reverse]
  | c :: rest, cur =>
    if p c then
      (if cur.isEmpty then wordsAux p rest [] else cur.reverse :: wordsAux p rest [])
    else wordsAux p rest (c :: cur)

/-- Python s.split() with no argument: split on whitespace runs, no empty
pieces. -/
def pySplitWs (s : String) : List String :=
  (wordsAux Char.isWhitespace s.data []).map String.mk

/-- Python s.split(sep) for a one-character separator: empty pieces are
kept, and the empty string yields one empty piece. -/
def splitOnChar (sep : Char) : List Char → List (List Char)
  | [] => [[]]
  | c :: rest =>
    let r := splitOnChar sep rest
    if c = sep then [] :: r
    else
      match r with
      | [] => [[c]]
      | w :: ws => (c :: w) :: ws

/-- Python s.split(sep)[-1] for a one-character separator. -/
def pyLastComponent (sep : Char) (s : String) : String :=
  String.mk ((splitOnChar sep s.data).getLastD [])

/-- Python s.replace(a, b) for one-character a and b: per-character map. -/
def pyReplaceChar (a b : Char) (s : String) : String :=
  String.mk (s.data.map (fun c => if c = a then b else c))

/-- Python pathlib.Path(p).name: the component after the last slash. -/
def pathBaseName (p : String) : String := pyLastComponent '/' p

/-! ## utils/ast_parser.py

The Python ast module's tree is modelled by the inductive types below,
restricted to the node kinds the visitor distinguishes.  A node kind the
visitor has no method for and that can carry nested statements (if, with,
try, ...) is modelled by PyStmt.other together with the list of statement
children that ast.NodeVisitor.generic_visit would recurse into. -/

/-- Expression shapes consulted by ASTParser for decorator and base-class
names.  reprStr on call and reprOnly is the text Python str(node) would
produce for the node (only reached for unusual shapes). -/
inductive PyExpr : Type
  | name (id : String)
  | attr (value : PyExpr) (attrName : String)
  | call (func : PyExpr) (reprStr : String)
  | reprOnly (reprStr : String)
deriving Repr, DecidableEq

/-- A function argument: ast.arg with its name and, when annotated, the
source text of the annotation (ast.unparse). -/
structure PyArg where
  name : String
  ann : Option String
deriving Repr, DecidableEq

/-- An ast.alias entry of an import statement: name and optional asname. -/
structure PyAlias where
  name : String
  asname : Option String
deriving Repr, DecidableEq

mutual
/-- A Python statement as seen by ASTParser. -/
inductive PyStmt : Type
  | classDef (name : String) (decorators : List PyExpr) (bases : List PyExpr)
      (body : List PyStmt)
  | funcDef (name : String) (args : List PyArg) (returns : Option String)
      (decorators : List PyExpr) (body : List PyStmt)
  | importStmt (names : List PyAlias)
  | importFrom (module : Option String) (names : List PyAlias)
  | exprStr (s : String)
  | exprOther
  | other (children : List PyStmt)

/-- A Python module: ast.Module with its statement list. -/
inductive PyModule : Type
  | mk (body : List PyStmt)
end

/-- Body of an ast.Module. -/
def PyModule.body : PyModule → List PyStmt
  | .mk b => b

/-- ASTParser._get_name. -/
def getName : PyExpr → String
  | .name id => id
  | .attr value a => getName value ++ "." ++ a
  | .call _ r => r
  | .reprOnly r => r

/-- ASTParser._get_decorator_name. -/
def getDecoratorName : PyExpr → String
  | .name id => id
  | .attr value a => getName value ++ "." ++ a
  | .call func _ => getDecoratorName func
  | .reprOnly r => r

/-- ast.get_docstring(node): the docstring of a class or function body,
that is the string of a leading bare string-literal expression statement.
The indentation clean-up that ast.get_docstring also applies
(inspect.cleandoc) is not modelled; no claim depends on the text. -/
def getDocstringOf : List PyStmt → Option String
  | .exprStr s :: _ => some s
  | _ => none

/-- A function entry produced by ASTParser._extract_function_info. -/
structure FunctionInfo where
  name : String
  args : List PyArg
  return_type : Option String
  decorators : List String
  docstring : Option String
  is_method : Bool
  cls : Option String
deriving Repr, DecidableEq

/-- A class entry produced by ASTParser.visit_ClassDef. -/
structure ClassInfo where
  name : String
  methods : List FunctionInfo
  decorators : List String
  bases : List String
  docstring : Option String
deriving Repr, DecidableEq

/-- An entry of the imports list: visit_Import appends a dict with keys
type='import', module, alias; visit_ImportFrom appends a dict with keys
type='from_import', module, name, alias. -/
inductive ImportInfo : Type
  | direct (module : String) (importAlias : Option String)
  | fromImport (module : String) (name : String) (importAlias : Option String)
deriving Repr, DecidableEq

/-- ASTParser._extract_function_info. -/
def extractFunctionInfo (currentClass : Option String) (nm : String)
    (args : List PyArg) (returns : Option String) (decorators : List PyExpr)
    (body : List PyStmt) (isMethod : Bool) : FunctionInfo :=
  { name := nm
    args := args
    return_type := returns
    decorators := decorators.map getDecoratorName
    docstring := getDocstringOf body
    is_method := isMethod
    cls := if isMethod then currentClass else none }

/-- The mutable state of an ASTParser instance. -/
structure ASTState where
  classes : List ClassInfo
  functions : List FunctionInfo
  imports : List ImportInfo
  docstring : Option String
  current_class : Option String
deriving Repr, DecidableEq

/-- ASTParser.__init__. -/
def ASTState.init : ASTState :=
  { classes := [], functions := [], imports := [], docstring := none,
    current_class := none }

mutual
/-- One dispatch of ast.NodeVisitor.visit on a statement node, as
specialised by ASTParser: visit_ClassDef, visit_FunctionDef, visit_Import
and visit_ImportFrom, each ending in generic_visit which recurses into
the statement children; statements without a visitor method just recurse
via generic_visit. -/
def visitStmt (st : ASTState) : PyStmt → ASTState
  | .classDef nm decorators bases body =>
    -- visit_ClassDef: build class_info (methods extracted with
    -- current_class = nm), append it, reset current_class to None, then
    -- generic_visit recurses into the class body (so the methods are
    -- ALSO visited as FunctionDef nodes, now with current_class = None).
    let methods := body.filterMap (fun s =>
      match s with
      | .funcDef fn fargs fret fdecs fbody =>
        some (extractFunctionInfo (some nm) fn fargs fret fdecs fbody true)
      | _ => none)
    let classInfo : ClassInfo :=
      { name := nm
        methods := methods
        decorators := decorators.map getDecoratorName
        bases := bases.map getName
        docstring := getDocstringOf body }
    let st := { st with classes := st.classes ++ [classInfo],
                        current_class := none }
    visitStmts st body
  | .funcDef nm args returns decorators body =>
    -- visit_FunctionDef: append to functions only when current_class is
    -- None, then generic_visit recurses into the function body.
    let st :=
      if st.current_class = none then
        { st with functions := st.functions ++
            [extractFunctionInfo st.current_class nm args returns decorators
              body false] }
      else st
    visitStmts st body
  | .importStmt names =>
    { st with imports := st.imports ++
        names.map (fun a => ImportInfo.direct a.name a.asname) }
  | .importFrom module names =>
    -- module = node.module or ''
    { st with imports := st.imports ++
        names.map (fun a => ImportInfo.fromImport (module.getD "") a.name
          a.asname) }
  | .exprStr _ => st
  | .exprOther => st
  | .other children => visitStmts st children

/-- generic_visit over a list of statement children, left to right. -/
def visitStmts (st : ASTState) : List PyStmt → ASTState
  | [] => st
  | s :: rest => visitStmts (visitStmt st s) rest
end

/-- The dictionary shape documented for parse_python_file: an error
message or the collected classes, functions, imports and docstring. -/
structure PyParseResult where
  error : Option String
  classes : List ClassInfo
  functions : List FunctionInfo
  imports : List ImportInfo
  docstring : Option String
deriving Repr, DecidableEq

/-- The state of an ASTParser after ASTParser.parse has visited the tree
and extracted the module-level docstring. -/
def ASTParser.run (tree : PyModule) : ASTState :=
  let st := visitStmts ASTState.init tree.body
  match tree.body with
  | .exprStr d :: _ => { st with docstring := some d }
  | _ => st

/-- ASTParser.parse: visits the tree and sets self.docstring, but the
method body contains no return statement, so Python returns None.  None
is modelled as Option.none of the documented result type. -/
def ASTParser.parse (tree : PyModule) : Option PyParseResult :=
  match ASTParser.run tree with
  | _ => none

/-- The input of parse_python_file, one level up from the raw file path:
reading the file and running ast.parse on its text either yields a tree,
raises SyntaxError, or raises some other exception (unreadable file). -/
inductive PyParseInput : Type
  | ok (tree : PyModule)
  | syntaxError (msg : String)
  | otherError (msg : String)

/-- parse_python_file: on a parsed tree delegates to ASTParser.parse; a
SyntaxError is caught and turned into an error dictionary with empty
lists; any other exception likewise with a different message prefix.  No
exception escapes. -/
def parse_python_file : PyParseInput → Option PyParseResult
  | .ok tree => ASTParser.parse tree
  | .syntaxError e =>
    some { error := some ("Syntax error: " ++ e), classes := [],
           functions := [], imports := [], docstring := none }
  | .otherError e =>
    some { error := some ("Parse error: " ++ e), classes := [],
           functions := [], imports := [], docstring := none }

/-! ## The repository index shape

services/repository_analyzer.py builds, per parsed file, a dictionary
with keys file_path, classes, functions, imports, docstring, and a
repository-wide structure with the files plus flattened lists of the
classes / functions / imports and a files_parsed counter.  Of the class and function
dictionaries, the code under verification only ever consults the name
key, so they are modelled by NamedDecl. -/

/-- A class or function entry of the index; only its name is consulted by
the graph builder, the relevance ranker and the feature extractor. -/
structure NamedDecl where
  name : String
deriving Repr, DecidableEq

/-- A per-file record of the repository index (the file_info dictionary
of RepositoryAnalyzer._parse_repository).  docstring is none when the key
holds Python None, which _parse_repository stores whenever the parsed
file had no module docstring. -/
structure FileInfo where
  file_path : String
  classes : List NamedDecl
  functions : List NamedDecl
  imports : List ImportInfo
  docstring : Option String
deriving Repr, DecidableEq

/-- The repository structure dictionary of
RepositoryAnalyzer._parse_repository. -/
structure PyStructure where
  files : List FileInfo
  classes : List NamedDecl
  functions : List NamedDecl
  imports : List ImportInfo
  files_parsed : Nat
deriving Repr, DecidableEq

/-- Python set insertion on the duplicate-free list model of a set: add
the element at the end unless it is already present. -/
def pySetInsert (x : String) (l : List String) : List String :=
  if x ∈ l then l else l ++ [x]

/-! ## services/impact_detector.py -/

/-- An edge dictionary as consumed by the impact detector; the fields are
the values of edge.get with default '' applied to the source, target and
type keys. -/
structure GraphEdge where
  source : String
  target : String
  type : String
deriving Repr, DecidableEq

/-- The dependency_graph dictionary as consumed by the impact detector;
edges is dependency_graph.get with default [] on the edges key. -/
structure PyGraph where
  edges : List GraphEdge
deriving Repr, DecidableEq

/-- An overlap entry of ImpactDetector.detect_feature_overlap. -/
structure Overlap where
  feature_name : String
  overlap_type : String
  conflict_description : String
deriving Repr, DecidableEq

/-- The result dictionary of an external text-generation call
(self.claude.analyze_impact), with the .get defaults applied: missing
affected_files / affected_features / warnings keys give [], a missing
recommendation gives ''. -/
structure ClaudeAnalysis where
  affected_files : List String
  affected_features : List String
  warnings : List String
  recommendation : String
deriving Repr, DecidableEq

/-- The impact_data dictionary passed to
ImpactDetector.calculate_risk_level, with the .get defaults applied. -/
structure ImpactData where
  affected_files : List String
  has_overlaps : Bool
  affects_core : Bool
  warnings : List String
deriving Repr, DecidableEq

/-- The report dictionary of ImpactDetector.analyze_change_impact.
affected_files is the Python set all_affected_files, enumerated by
list(...) in unspecified hash order; it is modelled as the duplicate-free
list of its elements in first-insertion order, and claims about it only
use it as a set (through toFinset) or through its length. -/
structure ImpactReport where
  risk_level : String
  affected_files : List String
  affected_features : List String
  warnings : List String
  recommendation : String
  should_proceed : Bool
  requires_approval : Bool
  overlaps : List Overlap
deriving DecidableEq

/-- The two keys of the RISK_CRITERIA dictionaries the code consults,
each read with criteria.get(key, False).  The other keys
(max_affected_files, has_overlaps, affects_core, requires_review,
breaking_changes, manual_review_required) are never read. -/
structure RiskCriteria where
  auto_proceed : Bool
  requires_approval : Bool
deriving Repr, DecidableEq

/-- RISK_CRITERIA.get(risk_level, RISK_CRITERIA.medium), projected to the
two consulted keys: low has auto_proceed True; high and critical have
requires_approval True; medium has neither, and a level that is not a key
falls back to medium. -/
def RISK_CRITERIA (level : String) : RiskCriteria :=
  if level = "low" then { auto_proceed := true, requires_approval := false }
  else if level = "medium" then { auto_proceed := false, requires_approval := false }
  else if level = "high" then { auto_proceed := false, requires_approval := true }
  else if level = "critical" then { auto_proceed := false, requires_approval := true }
  else { auto_proceed := false, requires_approval := false }

/-- ImpactDetector.calculate_risk_level. -/
def calculate_risk_level (impact_data : ImpactData) : String :=
  let affected_files_count := impact_data.affected_files.length
  let has_overlaps := impact_data.has_overlaps
  let affects_core := impact_data.affects_core
  let warnings_count := impact_data.warnings.length
  if affects_core ∧ warnings_count > 3 then "critical"
  else if affects_core ∨ affected_files_count > 8 then "high"
  else if has_overlaps ∨ affected_files_count > 3 then "medium"
  else "low"

/-- ImpactDetector.detect_feature_overlap. -/
def detect_feature_overlap (change_request : String)
    (existing_features : List String) : List Overlap :=
  let change_lower := pyLower change_request
  existing_features.filterMap (fun feature =>
    let feature_lower := pyLower feature
    if ((pySplitWs feature_lower).filter (fun word => decide (pyLen word > 4))).any
        (fun word => pyStrIn word change_lower) then
      some { feature_name := feature
             overlap_type := "potential_conflict"
             conflict_description :=
               "Change may conflict with existing feature: " ++ feature }
    else none)

/-- ImpactDetector._expand_affected_files: starts from set(initial_files)
and, for every edge whose type is imports and whose source has some
member of initial_files as a substring, adds the edge target.  The
membership test of the loop body is af in source on strings, that is
substring containment, and it always tests against initial_files, never
against the growing set.  The Python set is modelled as a duplicate-free
list: pySetInsert adds an element only when it is not yet present. -/
def expand_affected_files (initial_files : List String)
    (dependency_graph : PyGraph) : List String :=
  dependency_graph.edges.foldl
    (fun all_files edge =>
      if (initial_files.any (fun af => pyStrIn af edge.source)) &&
          (edge.type == "imports") then
        pySetInsert edge.target all_files
      else all_files)
    (initial_files.foldl (fun s x => pySetInsert x s) [])

/-- ImpactDetector._find_files_by_keywords.  The Python loop appends the
file once and breaks at the first matching keyword, which is the same as
filtering by an existential over the keywords. -/
def find_files_by_keywords (change_request : String) (struct : PyStructure) :
    List String :=
  let keywords := pySplitWs (pyLower change_request)
  struct.files.filterMap (fun file_info =>
    if keywords.any (fun keyword =>
        decide (pyLen keyword > 3) && pyStrIn keyword (pyLower file_info.file_path)) then
      some file_info.file_path
    else none)

/-- ImpactDetector._extract_features: names of the flattened class list
then of the flattened function list, keeping the nonempty names that do
not start with an underscore. -/
def extract_features (struct : PyStructure) : List String :=
  (struct.classes.filterMap (fun cls =>
    if cls.name ≠ "" ∧ ¬ pyStartsWith cls.name "_" then some cls.name else none)) ++
  (struct.functions.filterMap (fun func =>
    if func.name ≠ "" ∧ ¬ pyStartsWith func.name "_" then some func.name else none))

/-- The core_keywords list of ImpactDetector._affects_core_modules. -/
def core_keywords : List String :=
  ["app.py", "config", "auth", "database", "model", "service"]

/-- ImpactDetector._affects_core_modules. -/
def affects_core_modules (files : List String) : Bool :=
  files.any (fun f => core_keywords.any (fun keyword => pyStrIn keyword (pyLower f)))

/-- ImpactDetector.analyze_change_impact.  The repository structure and
dependency graph are the structure_json contents of the repo_data
argument; claude_analysis is the result of the external
self.claude.analyze_impact call, passed in explicitly here since the
text-generation service is an external collaborator. -/
def analyze_change_impact (change_request : String) (struct : PyStructure)
    (dependency_graph : PyGraph) (claude_analysis : ClaudeAnalysis) :
    ImpactReport :=
  let affected_files := claude_analysis.affected_files
  -- if not affected_files: fallback to keyword search
  let affected_files :=
    if affected_files.isEmpty then find_files_by_keywords change_request struct
    else affected_files
  let all_affected_files := expand_affected_files affected_files dependency_graph
  let existing_features := extract_features struct
  let overlaps := detect_feature_overlap change_request existing_features
  let risk_level := calculate_risk_level
    { affected_files := all_affected_files
      has_overlaps := decide (overlaps.length > 0)
      affects_core := affects_core_modules all_affected_files
      warnings := claude_analysis.warnings }
  let criteria := RISK_CRITERIA risk_level
  { risk_level := risk_level
    affected_files := all_affected_files
    affected_features := claude_analysis.affected_features
    warnings := claude_analysis.warnings ++
      overlaps.map (fun o => o.conflict_description)
    recommendation := claude_analysis.recommendation
    should_proceed := criteria.auto_proceed
    requires_approval := criteria.requires_approval
    overlaps := overlaps }

/-! ## services/repository_analyzer.py: relevance ranker -/

/-- An entry of the list RepositoryAnalyzer.get_relevant_files returns.
The content key (the file text re-read from disk, empty string on any
read failure) is a file-system effect outside this embedding and is not
modelled; no claim mentions it. -/
structure ScoredFile where
  file_path : String
  relevance_score : ℚ
deriving Repr, DecidableEq

/-- One scoring loop of get_relevant_files: for term in query_terms, if
term in hay then score += pts. -/
def scoreFromTerms (base : ℚ) (pts : ℚ) (query_terms : List String)
    (hay : String) : ℚ :=
  query_terms.foldl (fun score term => if pyStrIn term hay then score + pts
    else score) base

/-- Insert into a list already sorted by descending relevance_score,
after every entry with a strictly greater score and before the first
entry with a smaller or equal score.  sortScoredDesc sorts the tail
first and then inserts the head, so the earlier-indexed entry is placed
before every equal-scored later entry; this reproduces the stability of
Python list.sort(key=..., reverse=True), whose output is uniquely
determined by descending order plus original order on ties
(sortScoredDesc_stable proves the tie-order preservation). -/
def insertScoredDesc (x : ScoredFile) : List ScoredFile → List ScoredFile
  | [] => [x]
  | y :: ys =>
    if x.relevance_score ≥ y.relevance_score then x :: y :: ys
    else y :: insertScoredDesc x ys

/-- scored_files.sort(key=relevance_score, reverse=True): stable sort by
descending score (sortedness: sortScoredDesc_sorted; stability:
sortScoredDesc_stable). -/
def sortScoredDesc : List ScoredFile → List ScoredFile
  | [] => []
  | x :: xs => insertScoredDesc x (sortScoredDesc xs)

/-- The per-file loop of get_relevant_files: file-name, class-name,
function-name and docstring scoring, keeping the files with positive
score.  Reading the docstring is file_info.get('docstring', '').lower():
when the docstring key holds Python None the .lower() call raises
AttributeError, modelled as the Except error case, which aborts the whole
ranking call. -/
def rankFiles (query_terms : List String) :
    List FileInfo → Except String (List ScoredFile)
  | [] => .ok []
  | file_info :: rest =>
    let file_name := pyLower (pathBaseName file_info.file_path)
    let score : ℚ := scoreFromTerms 0 2 query_terms file_name
    let score := file_info.classes.foldl
      (fun sc cls => scoreFromTerms sc (3/2) query_terms (pyLower cls.name)) score
    let score := file_info.functions.foldl
      (fun sc func => scoreFromTerms sc 1 query_terms (pyLower func.name)) score
    match file_info.docstring with
    | none => .error "AttributeError: NoneType has no attribute lower"
    | some doc =>
      let score := scoreFromTerms score (1/2) query_terms (pyLower doc)
      match rankFiles query_terms rest with
      | .error e => .error e
      | .ok scored =>
        .ok (if score > 0 then
               { file_path := file_info.file_path, relevance_score := score } :: scored
             else scored)

/-- RepositoryAnalyzer.get_relevant_files, given the structure stored for
the repository (the database fetch and the early return on a missing
repository are persistence plumbing outside this embedding). -/
def get_relevant_files (query : String) (struct : PyStructure) (top_k : Nat) :
    Except String (List ScoredFile) :=
  let query_terms := pySplitWs (pyLower query)
  match rankFiles query_terms struct.files with
  | .error e => .error e
  | .ok scored_files => .ok ((sortScoredDesc scored_files).take top_k)

/-! ## services/repository_analyzer.py: dependency graph builder

networkx.DiGraph is modelled by node and edge lists in insertion order:
add_node on a present id updates the given attributes in place, add_edge
on a present (source, target) pair updates its attributes in place, and
add_edge inserts missing endpoint nodes with no attributes.  The
circular_dependencies entry of the returned dictionary (the
networkx.simple_cycles enumeration) is not consulted by any claim and is
not modelled. -/

/-- The attribute dictionary of a graph node: its type attribute (file,
class or function; none for a node auto-inserted by add_edge) and, for
declaration nodes, the file attribute naming the owning file. -/
structure NodeData where
  type : Option String
  file : Option String
deriving Repr, DecidableEq

/-- A graph node: its id string with its attributes. -/
structure GNode where
  id : String
  data : NodeData
deriving Repr, DecidableEq

/-- A graph edge with its type attribute. -/
structure GEdge where
  source : String
  target : String
  type : String
deriving Repr, DecidableEq

/-- The modelled networkx.DiGraph: nodes and edges in insertion order. -/
structure NxGraph where
  nodes : List GNode
  edges : List GEdge
deriving Repr, DecidableEq

/-- G.add_node(nid, type=ty): update the type attribute if the node
exists, else append a fresh node carrying only the type attribute. -/
def addNodeTypeOnly (g : NxGraph) (nid ty : String) : NxGraph :=
  if g.nodes.any (fun n => n.id == nid) then
    { g with nodes := g.nodes.map (fun n =>
        if n.id = nid then { n with data := { n.data with type := some ty } }
        else n) }
  else { g with nodes := g.nodes ++ [⟨nid, ⟨some ty, none⟩⟩] }

/-- G.add_node(nid, type=ty, file=fp): update both attributes if the node
exists, else append a fresh node with both. -/
def addNodeTypeFile (g : NxGraph) (nid ty fp : String) : NxGraph :=
  if g.nodes.any (fun n => n.id == nid) then
    { g with nodes := g.nodes.map (fun n =>
        if n.id = nid then { n with data := ⟨some ty, some fp⟩ } else n) }
  else { g with nodes := g.nodes ++ [⟨nid, ⟨some ty, some fp⟩⟩] }

/-- add_edge inserts a missing endpoint as a node without attributes. -/
def ensureNode (g : NxGraph) (nid : String) : NxGraph :=
  if g.nodes.any (fun n => n.id == nid) then g
  else { g with nodes := g.nodes ++ [⟨nid, ⟨none, none⟩⟩] }

/-- G.add_edge(u, v, type=ty): ensure both endpoints exist, then update
the type attribute of the (u, v) edge if present, else append it. -/
def addEdge (g : NxGraph) (u v ty : String) : NxGraph :=
  let g := ensureNode (ensureNode g u) v
  if g.edges.any (fun e => e.source == u && e.target == v) then
    { g with edges := g.edges.map (fun e =>
        if e.source = u ∧ e.target = v then { e with type := ty } else e) }
  else { g with edges := g.edges ++ [⟨u, v, ty⟩] }

/-- The class/function half of one file iteration of
build_dependency_graph: add the declaration node keyed
file_path::name and the contains edge from the file node to it. -/
def addDeclNode (fp ty : String) (g : NxGraph) (decl : NamedDecl) : NxGraph :=
  let node_name := fp ++ "::" ++ decl.name
  addEdge (addNodeTypeFile g node_name ty fp) fp node_name "contains"

/-- RepositoryAnalyzer.build_dependency_graph: first pass adds a file
node per indexed file plus class and function nodes with contains edges;
second pass adds an imports edge from each file with a from-import to
every other indexed file matched by the module text (dotted path with
separators replaced, or last dotted component, as a substring of the
candidate path). -/
def build_dependency_graph (struct : PyStructure) : NxGraph :=
  let g : NxGraph := ⟨[], []⟩
  let g := struct.files.foldl (fun g file_info =>
    let g := addNodeTypeOnly g file_info.file_path "file"
    let g := file_info.classes.foldl (addDeclNode file_info.file_path "class") g
    let g := file_info.functions.foldl (addDeclNode file_info.file_path "function") g
    g) g
  struct.files.foldl (fun g file_info =>
    file_info.imports.foldl (fun g imp =>
      match imp with
      | .direct _ _ => g
      | .fromImport module _ _ =>
        let target_files := struct.files.filterMap (fun f =>
          if pyStrIn (pyReplaceChar '.' '/' module) f.file_path ||
              pyStrIn (pyLastComponent '.' module) f.file_path then
            some f.file_path
          else none)
        target_files.foldl (fun g target =>
          if target ≠ file_info.file_path then
            addEdge g file_info.file_path target "imports"
          else g) g) g) g

/-! ## Helper facts about risk levels -/

/-- The ordering low = 0 < medium = 1 < high = 2 < critical = 3 on the
risk-level strings. -/
def riskRank (level : String) : Nat :=
  if level = "low" then 0
  else if level = "medium" then 1
  else if level = "high" then 2
  else 3

/-! ## Claim theorems -/

/-- C1: the claim says parse_python_file returns a structured declaration
result on every well-formed source text.  The code does not: the body of
ASTParser.parse has no return statement, so for every successfully parsed
tree parse_python_file returns Python None instead of the documented
dictionary — contradicting the function's own docstring, its return-type
annotation, and the unit tests in tests/test_analyzer.py which index into
the result.  This theorem evaluates the code at every well-formed input:
the result is always None. -/
theorem C1_parse_returns_none_on_valid_input (tree : PyModule) :
    parse_python_file (PyParseInput.ok tree) = none := rfl

/-- C6: on malformed syntax (and on any other exception from reading or
parsing), parse_python_file propagates nothing and returns a result value
carrying an error message together with empty lists of classes,
functions and imports, and a None docstring. -/
theorem C6_malformed_syntax_yields_error_value (e : String) :
    parse_python_file (PyParseInput.syntaxError e) =
      some { error := some ("Syntax error: " ++ e), classes := [],
             functions := [], imports := [], docstring := none } ∧
    parse_python_file (PyParseInput.otherError e) =
      some { error := some ("Parse error: " ++ e), classes := [],
             functions := [], imports := [], docstring := none } :=
  ⟨rfl, rfl⟩

/-- C2: calculate_risk_level implements exactly the fixed priority table:
critical iff affects_core and more than three warnings; otherwise high
iff affects_core or more than eight affected files; otherwise medium iff
overlaps or more than three affected files; otherwise low.  In
particular, nine affected files with no core involvement, no overlaps and
no warnings yield high. -/
theorem C2_risk_rule_table (d : ImpactData) :
    (calculate_risk_level d = "critical" ↔
      (d.affects_core = true ∧ d.warnings.length > 3)) ∧
    (calculate_risk_level d = "high" ↔
      (¬ (d.affects_core = true ∧ d.warnings.length > 3) ∧
        (d.affects_core = true ∨ d.affected_files.length > 8))) ∧
    (calculate_risk_level d = "medium" ↔
      (¬ (d.affects_core = true ∧ d.warnings.length > 3) ∧
        ¬ (d.affects_core = true ∨ d.affected_files.length > 8) ∧
        (d.has_overlaps = true ∨ d.affected_files.length > 3))) ∧
    (calculate_risk_level d = "low" ↔
      (¬ (d.affects_core = true ∧ d.warnings.length > 3) ∧
        ¬ (d.affects_core = true ∨ d.affected_files.length > 8) ∧
        ¬ (d.has_overlaps = true ∨ d.affected_files.length > 3))) ∧
    calculate_risk_level
      { affected_files := List.replicate 9 "file.py", has_overlaps := false,
        affects_core := false, warnings := [] } = "high" := by
  unfold calculate_risk_level
  refine ⟨?_, ?_, ?_, ?_, by decide⟩ <;> dsimp only <;>
    split_ifs with h1 h2 h3 <;> simp_all

/-- C5: risk monotonicity.  For fixed overlap flag, core flag and warning
list, a larger affected-file count never yields a lower risk level in the
ordering low, medium, high, critical. -/
theorem C5_risk_monotone_in_file_count (ho ac : Bool) (ws : List String)
    (files1 files2 : List String) (h : files1.length ≤ files2.length) :
    riskRank (calculate_risk_level
      { affected_files := files1, has_overlaps := ho, affects_core := ac,
        warnings := ws }) ≤
    riskRank (calculate_risk_level
      { affected_files := files2, has_overlaps := ho, affects_core := ac,
        warnings := ws }) := by
  unfold calculate_risk_level
  dsimp only
  by_cases hc : (ac : Prop) ∧ ws.length > 3
  · rw [if_pos hc, if_pos hc]
  · rw [if_neg hc, if_neg hc]
    by_cases hh1 : (ac : Prop) ∨ files1.length > 8
    · have hh2 : (ac : Prop) ∨ files2.length > 8 := by
        rcases hh1 with h1 | h1
        · exact Or.inl h1
        · exact Or.inr (by omega)
      rw [if_pos hh1, if_pos hh2]
    · by_cases hh2 : (ac : Prop) ∨ files2.length > 8
      · rw [if_neg hh1, if_pos hh2]
        split_ifs <;> simp [riskRank]
      · rw [if_neg hh1, if_neg hh2]
        by_cases hm1 : (ho : Prop) ∨ files1.length > 3
        · have hm2 : (ho : Prop) ∨ files2.length > 3 := by
            rcases hm1 with h1 | h1
            · exact Or.inl h1
            · exact Or.inr (by omega)
          rw [if_pos hm1, if_pos hm2]
        · by_cases hm2 : (ho : Prop) ∨ files2.length > 3
          · rw [if_neg hm1, if_pos hm2]
            simp [riskRank]
          · rw [if_neg hm1, if_neg hm2]

/-- C5 witness: the monotonicity theorem applied at the concrete counts
zero and one. -/
theorem C5_risk_monotone_in_file_count_witness :
    ([] : List String).length ≤ ["a.py"].length ∧
    riskRank (calculate_risk_level
      { affected_files := [], has_overlaps := false, affects_core := false,
        warnings := [] }) ≤
    riskRank (calculate_risk_level
      { affected_files := ["a.py"], has_overlaps := false,
        affects_core := false, warnings := [] }) :=
  ⟨by decide,
   C5_risk_monotone_in_file_count false false [] [] ["a.py"] (by decide)⟩

/-- C7: with no external opinion (all hint fields empty), an empty index
and an empty dependency graph, the analyzer still returns a complete
report for every change description: keyword seeding over the empty index
yields no files, the overlap and warning lists are empty, the risk level
is low, and the low policy (auto-proceed, no approval) is applied. -/
theorem C7_empty_inputs_degrade_to_low_report (change_request : String) :
    analyze_change_impact change_request
      { files := [], classes := [], functions := [], imports := [],
        files_parsed := 0 }
      { edges := [] }
      { affected_files := [], affected_features := [], warnings := [],
        recommendation := "" } =
      { risk_level := "low", affected_files := [], affected_features := [],
        warnings := [], recommendation := "", should_proceed := true,
        requires_approval := false, overlaps := [] } := by
  rfl

/-! ## Set lemmas for the expansion -/

/-- pySetInsert agrees with Finset insertion. -/
theorem toFinset_pySetInsert (x : String) (l : List String) :
    (pySetInsert x l).toFinset = insert x l.toFinset := by
  unfold pySetInsert
  split_ifs with h
  · ext y
    simp only [List.mem_toFinset, Finset.mem_insert]
    constructor
    · exact fun hy => Or.inr hy
    · rintro (rfl | hy)
      exacts [h, hy]
  · ext y
    simp [or_comm]

/-- Folding pySetInsert over a list starting from an accumulator yields
the union of the two, as a Finset. -/
theorem toFinset_setFold (l acc : List String) :
    (l.foldl (fun s x => pySetInsert x s) acc).toFinset =
      acc.toFinset ∪ l.toFinset := by
  induction l generalizing acc with
  | nil => simp
  | cons x xs ih =>
    simp only [List.foldl_cons, ih, toFinset_pySetInsert, List.toFinset_cons]
    ext y
    simp only [Finset.mem_union, Finset.mem_insert, List.mem_toFinset]
    tauto

/-- The edge loop of _expand_affected_files, over any accumulator: it
adds exactly the targets of the imports edges whose source contains some
member of initial as a substring. -/
theorem expand_fold_toFinset (initial : List String) (es : List GraphEdge)
    (acc : List String) :
    (es.foldl (fun all_files edge =>
        if (initial.any (fun af => pyStrIn af edge.source)) &&
            (edge.type == "imports") then
          pySetInsert edge.target all_files
        else all_files) acc).toFinset =
      acc.toFinset ∪ (es.filterMap (fun e =>
        if e.type = "imports" ∧
            initial.any (fun af => pyStrIn af e.source) = true then
          some e.target
        else none)).toFinset := by
  induction es generalizing acc with
  | nil => simp
  | cons e es ih =>
    simp only [List.foldl_cons, List.filterMap_cons]
    cases hb : (initial.any (fun af => pyStrIn af e.source)) &&
        (e.type == "imports") with
    | true =>
      have hc : e.type = "imports" ∧
          initial.any (fun af => pyStrIn af e.source) = true := by
        simp only [Bool.and_eq_true, beq_iff_eq] at hb
        exact ⟨hb.2, hb.1⟩
      rw [if_pos hc]
      simp only [eq_self_iff_true, if_true]
      rw [ih, toFinset_pySetInsert, List.toFinset_cons]
      ext y
      simp only [Finset.mem_union, Finset.mem_insert, List.mem_toFinset]
      tauto
    | false =>
      have hc : ¬ (e.type = "imports" ∧
          initial.any (fun af => pyStrIn af e.source) = true) := by
        intro h
        rw [h.1, h.2] at hb
        simp at hb
      rw [if_neg hc]
      simp only [Bool.false_eq_true, if_false]
      exact ih acc

/-- The claimed expansion rule, as the claim words it: the seed set
together with the target of each imports edge whose source file IS A
MEMBER of the seed set.  Stated for comparison with the code-side
expand_affected_files. -/
def expand_affected_files_claimed (initial_files : List String)
    (dependency_graph : PyGraph) : Finset String :=
  initial_files.toFinset ∪
    (dependency_graph.edges.filterMap (fun e =>
      if e.type = "imports" ∧ e.source ∈ initial_files then some e.target
      else none)).toFinset

/-- C3 counterexample: the claim says the expansion only follows imports
edges whose source is a member of the seed set.  With seed ["a"] and the
single imports edge ab.py → c.py, the source ab.py is not a member of the
seed set, yet the code adds c.py, because the loop tests af in source,
which is substring containment on strings, and "a" is a substring of
"ab.py".  So the claimed set differs from the computed set. -/
theorem C3_counterexample_substring_not_membership :
    (expand_affected_files ["a"]
        { edges := [{ source := "ab.py", target := "c.py",
                      type := "imports" }] }).toFinset ≠
      expand_affected_files_claimed ["a"]
        { edges := [{ source := "ab.py", target := "c.py",
                      type := "imports" }] } := by
  decide

/-- C3 amended: the expanded affected-file set equals the seed set
together with the target of each imports edge whose source CONTAINS some
member of the seed set as a substring (Python af in source on strings) —
no other file is added, and the expansion is one pass only: the
containment test always runs against the original seed list, never
against targets added during the loop. -/
theorem C3_expansion_substring_one_pass (initial_files : List String)
    (dependency_graph : PyGraph) :
    (expand_affected_files initial_files dependency_graph).toFinset =
      initial_files.toFinset ∪
        (dependency_graph.edges.filterMap (fun e =>
          if e.type = "imports" ∧
              initial_files.any (fun af => pyStrIn af e.source) = true then
            some e.target
          else none)).toFinset := by
  unfold expand_affected_files
  rw [expand_fold_toFinset, toFinset_setFold]
  simp

/-- C4 counterexample: the claim says that analysing the change
description fix ClaimApproval logic against an index containing a class
ClaimApprovalService yields exactly one overlap entry naming that class.
It does not: detect_feature_overlap splits the feature name on
whitespace, so its only word is claimapprovalservice (length 20), which
is not a substring of the lower-cased description, and the overlap list
names the class zero times. -/
theorem C4_counterexample_no_entry_named :
    ¬ (((analyze_change_impact "fix ClaimApproval logic"
          { files := [], classes := [{ name := "ClaimApprovalService" }],
            functions := [], imports := [], files_parsed := 0 }
          { edges := [] }
          { affected_files := [], affected_features := [], warnings := [],
            recommendation := "" }).overlaps.filter
        (fun o => o.feature_name == "ClaimApprovalService")).length = 1) := by
  decide

/-- C4 amended: on an index whose only feature is the class
ClaimApprovalService, analysing fix ClaimApproval logic returns an EMPTY
overlap list: feature names are whitespace-split, the single word
claimapprovalservice is longer than 4 characters but is not contained in
the lower-cased change description, so no overlap entry is recorded. -/
theorem C4_overlap_list_empty :
    (analyze_change_impact "fix ClaimApproval logic"
        { files := [], classes := [{ name := "ClaimApprovalService" }],
          functions := [], imports := [], files_parsed := 0 }
        { edges := [] }
        { affected_files := [], affected_features := [], warnings := [],
          recommendation := "" }).overlaps = [] := by
  decide

/-! ## Ranker lemmas -/

/-- rankFiles fails exactly when some file record carries a None
docstring: the loop reaches the docstring access of every file up to the
first offending one, and nothing else raises. -/
theorem rankFiles_error_iff (query_terms : List String) (files : List FileInfo) :
    (∃ e, rankFiles query_terms files = .error e) ↔
      ∃ fi ∈ files, fi.docstring = none := by
  induction files with
  | nil => simp [rankFiles]
  | cons fi rest ih =>
    cases hd : fi.docstring with
    | none =>
      constructor
      · intro _
        exact ⟨fi, List.mem_cons_self fi rest, hd⟩
      · intro _
        refine ⟨"AttributeError: NoneType has no attribute lower", ?_⟩
        simp only [rankFiles, hd]
    | some doc =>
      cases hr : rankFiles query_terms rest with
      | error e =>
        constructor
        · intro _
          have hrest : ∃ fi2 ∈ rest, fi2.docstring = none := ih.mp ⟨e, hr⟩
          rcases hrest with ⟨fi2, h2, h3⟩
          exact ⟨fi2, List.mem_cons_of_mem fi h2, h3⟩
        · intro _
          refine ⟨e, ?_⟩
          simp only [rankFiles, hd, hr]
      | ok l =>
        constructor
        · intro hE
          rcases hE with ⟨e, hE⟩
          simp only [rankFiles, hd, hr] at hE
          exact Except.noConfusion hE
        · intro hsome
          rcases hsome with ⟨fi2, h2, h3⟩
          rcases List.mem_cons.mp h2 with rfl | h2
          · rw [hd] at h3
            cases h3
          · have : ∃ e, rankFiles query_terms rest = .error e :=
              ih.mpr ⟨fi2, h2, h3⟩
            rcases this with ⟨e, he⟩
            rw [he] at hr
            cases hr

/-- C10: get_relevant_files raises (an AttributeError from None.lower())
exactly when the index contains a file record whose docstring field holds
None; it completes without error precisely when every file record's
docstring is a string. -/
theorem C10_ranker_raises_iff_null_docstring (query : String)
    (struct : PyStructure) (top_k : Nat) :
    (∃ e, get_relevant_files query struct top_k = .error e) ↔
      ∃ fi ∈ struct.files, fi.docstring = none := by
  unfold get_relevant_files
  rw [← rankFiles_error_iff (pySplitWs (pyLower query)) struct.files]
  cases hr : rankFiles (pySplitWs (pyLower query)) struct.files with
  | error e => simp [hr]
  | ok l => simp [hr]

/-- A scoring loop adds its point value once per matching term. -/
theorem scoreFromTerms_eq_countP (base pts : ℚ) (query_terms : List String)
    (hay : String) :
    scoreFromTerms base pts query_terms hay =
      base + pts * (query_terms.countP (fun t => pyStrIn t hay) : ℚ) := by
  induction query_terms generalizing base with
  | nil => simp [scoreFromTerms]
  | cons t ts ih =>
    unfold scoreFromTerms
    rw [List.foldl_cons]
    show scoreFromTerms (if pyStrIn t hay then base + pts else base) pts ts hay = _
    rw [ih, List.countP_cons]
    by_cases hm : pyStrIn t hay = true
    · rw [if_pos hm]
      simp only [hm, if_true]
      push_cast
      ring
    · rw [if_neg hm]
      simp only [hm, if_false]
      push_cast
      ring

/-- A nested scoring loop over declarations adds its point value once per
(declaration, term) matching pair. -/
theorem foldl_scoreFromTerms_eq (base pts : ℚ) (query_terms : List String)
    (decls : List NamedDecl) :
    decls.foldl (fun sc d => scoreFromTerms sc pts query_terms (pyLower d.name))
        base =
      base + pts * ((decls.map (fun d =>
        (query_terms.countP (fun t => pyStrIn t (pyLower d.name)) : ℚ))).sum) := by
  induction decls generalizing base with
  | nil => simp
  | cons d ds ih =>
    rw [List.foldl_cons, ih, scoreFromTerms_eq_countP, List.map_cons,
      List.sum_cons]
    ring

/-- The per-file relevance score written per matching pair: 2 per term in
the lower-cased base name, 3/2 per (class, term) pair, 1 per
(function, term) pair, 1/2 per term in the lower-cased docstring. -/
def pairScore (query_terms : List String) (fi : FileInfo) : ℚ :=
  2 * (query_terms.countP
        (fun t => pyStrIn t (pyLower (pathBaseName fi.file_path))) : ℚ) +
  (3/2) * ((fi.classes.map (fun cls =>
    (query_terms.countP (fun t => pyStrIn t (pyLower cls.name)) : ℚ))).sum) +
  1 * ((fi.functions.map (fun func =>
    (query_terms.countP (fun t => pyStrIn t (pyLower func.name)) : ℚ))).sum) +
  (1/2) * (query_terms.countP
        (fun t => pyStrIn t (pyLower (fi.docstring.getD ""))) : ℚ)

/-- When every docstring is present, the ranking loop succeeds and keeps
exactly the files of positive pair score, in index order. -/
theorem rankFiles_eq_filterMap (query_terms : List String)
    (files : List FileInfo) (h : ∀ fi ∈ files, fi.docstring ≠ none) :
    rankFiles query_terms files = .ok (files.filterMap (fun fi =>
      if pairScore query_terms fi > 0 then
        some { file_path := fi.file_path,
               relevance_score := pairScore query_terms fi }
      else none)) := by
  induction files with
  | nil => simp [rankFiles]
  | cons fi rest ih =>
    cases hd : fi.docstring with
    | none => exact absurd hd (h fi (List.mem_cons_self fi rest))
    | some doc =>
      have hrest := ih (fun f hf => h f (List.mem_cons_of_mem fi hf))
      have hscore : scoreFromTerms
          (List.foldl (fun sc func => scoreFromTerms sc 1 query_terms
            (pyLower func.name))
            (List.foldl (fun sc cls => scoreFromTerms sc (3/2) query_terms
              (pyLower cls.name))
              (scoreFromTerms 0 2 query_terms (pyLower (pathBaseName fi.file_path)))
              fi.classes)
            fi.functions)
          (1/2) query_terms (pyLower doc) = pairScore query_terms fi := by
        rw [scoreFromTerms_eq_countP, foldl_scoreFromTerms_eq,
          foldl_scoreFromTerms_eq, scoreFromTerms_eq_countP, pairScore, hd]
        show _ = _ + _ * ((query_terms.countP
          (fun t => pyStrIn t (pyLower ((some doc).getD "")))) : ℚ)
        simp only [Option.getD_some]
        ring
      simp only [rankFiles, hd, hrest, hscore]
      by_cases hp : pairScore query_terms fi > 0 <;>
        simp [hp, List.filterMap_cons]

/-- Membership in an insertion: the inserted element or an old one. -/
theorem mem_insertScoredDesc {z x : ScoredFile} {l : List ScoredFile}
    (h : z ∈ insertScoredDesc x l) : z = x ∨ z ∈ l := by
  induction l with
  | nil =>
    simp only [insertScoredDesc, List.mem_singleton] at h
    exact Or.inl h
  | cons y ys ih =>
    unfold insertScoredDesc at h
    split_ifs at h with hge
    · rcases List.mem_cons.mp h with rfl | h
      · exact Or.inl rfl
      · exact Or.inr h
    · rcases List.mem_cons.mp h with rfl | h
      · exact Or.inr (List.mem_cons_self _ _)
      · rcases ih h with h1 | h1
        · exact Or.inl h1
        · exact Or.inr (List.mem_cons_of_mem _ h1)

/-- Inserting into a list sorted by descending score keeps it sorted. -/
theorem pairwise_insertScoredDesc (x : ScoredFile) (l : List ScoredFile)
    (hl : List.Pairwise (fun a b => b.relevance_score ≤ a.relevance_score) l) :
    List.Pairwise (fun a b => b.relevance_score ≤ a.relevance_score)
      (insertScoredDesc x l) := by
  induction l with
  | nil => simp [insertScoredDesc]
  | cons y ys ih =>
    rcases List.pairwise_cons.mp hl with ⟨hy, hys⟩
    unfold insertScoredDesc
    split_ifs with hge
    · refine List.pairwise_cons.mpr ⟨?_, hl⟩
      intro z hz
      rcases List.mem_cons.mp hz with rfl | hz
      · exact hge
      · exact le_trans (hy z hz) hge
    · refine List.pairwise_cons.mpr ⟨?_, ih hys⟩
      intro z hz
      rcases mem_insertScoredDesc hz with rfl | hz
      · exact le_of_lt (not_le.mp hge)
      · exact hy z hz

/-- The ranker's sort output is sorted by descending relevance score. -/
theorem sortScoredDesc_sorted (l : List ScoredFile) :
    List.Pairwise (fun a b => b.relevance_score ≤ a.relevance_score)
      (sortScoredDesc l) := by
  induction l with
  | nil => simp [sortScoredDesc]
  | cons x xs ih => exact pairwise_insertScoredDesc x _ ih

/-- Where an insertion lands relative to a tie class: the inserted entry
is placed before every entry of equal score (the entries it passes all
have strictly greater scores), so filtering any score keeps it first. -/
theorem filter_insertScoredDesc (q : ℚ) (x : ScoredFile)
    (l : List ScoredFile) :
    (insertScoredDesc x l).filter (fun e => e.relevance_score == q) =
      if x.relevance_score = q then
        x :: l.filter (fun e => e.relevance_score == q)
      else l.filter (fun e => e.relevance_score == q) := by
  induction l with
  | nil =>
    by_cases hx : x.relevance_score = q <;>
      simp [insertScoredDesc, List.filter_cons, hx]
  | cons y ys ih =>
    by_cases hge : x.relevance_score ≥ y.relevance_score
    · have hrw : insertScoredDesc x (y :: ys) = x :: y :: ys := by
        unfold insertScoredDesc
        rw [if_pos hge]
      rw [hrw]
      by_cases hx : x.relevance_score = q <;> simp [List.filter_cons, hx]
    · have hrw : insertScoredDesc x (y :: ys) = y :: insertScoredDesc x ys := by
        unfold insertScoredDesc
        rw [if_neg hge]
        cases ys <;> rfl
      rw [hrw]
      have hyx : x.relevance_score < y.relevance_score := not_le.mp hge
      by_cases hx : x.relevance_score = q
      · have hy : ¬ y.relevance_score = q := by
          intro hyq
          rw [hx] at hyx
          rw [hyq] at hyx
          exact lt_irrefl q hyx
        simp [List.filter_cons, ih, hx, hy]
      · simp [List.filter_cons, ih, hx]

/-- Stability of the descending sort: for every score value, the entries
carrying that score appear in the sorted output in exactly their
original order (Python list.sort is stable; reverse=True reverses only
the comparison, not the tie order). -/
theorem sortScoredDesc_stable (q : ℚ) (l : List ScoredFile) :
    (sortScoredDesc l).filter (fun e => e.relevance_score == q) =
      l.filter (fun e => e.relevance_score == q) := by
  induction l with
  | nil => rfl
  | cons x xs ih =>
    show (insertScoredDesc x (sortScoredDesc xs)).filter
        (fun e => e.relevance_score == q) = _
    rw [filter_insertScoredDesc]
    by_cases hx : x.relevance_score = q <;> simp [List.filter_cons, hx, ih]

/-- The per-file relevance score as the claim words it: summed over the
query terms, 2 per term found in the base name, 3/2 per term found in ANY
class name, 1 per term found in ANY function name, 1/2 per term found in
the docstring — each term contributing each weight at most once.  Stated
for comparison with the code-side score. -/
def claimedScore (query_terms : List String) (fi : FileInfo) : ℚ :=
  (query_terms.map (fun t =>
    (if pyStrIn t (pyLower (pathBaseName fi.file_path)) then (2 : ℚ) else 0) +
    (if fi.classes.any (fun cls => pyStrIn t (pyLower cls.name)) then
      (3/2 : ℚ) else 0) +
    (if fi.functions.any (fun func => pyStrIn t (pyLower func.name)) then
      (1 : ℚ) else 0) +
    (if pyStrIn t (pyLower (fi.docstring.getD "")) then (1/2 : ℚ)
      else 0))).sum

/-- The ranker output as the claim describes it: files of positive
claimed score, stably sorted by descending score, truncated to top_k. -/
def get_relevant_files_claimed (query : String) (struct : PyStructure)
    (top_k : Nat) : List ScoredFile :=
  (sortScoredDesc (struct.files.filterMap (fun fi =>
    if claimedScore (pySplitWs (pyLower query)) fi > 0 then
      some { file_path := fi.file_path,
             relevance_score := claimedScore (pySplitWs (pyLower query)) fi }
    else none))).take top_k

/-- The index used by the C8 counterexample: one file with two classes
Alpha and Alphabet, both containing the query term alpha. -/
def c8File : FileInfo :=
  { file_path := "m.py",
    classes := [{ name := "Alpha" }, { name := "Alphabet" }],
    functions := [], imports := [], docstring := some "" }

/-- The one-file index of the C8 counterexample. -/
def c8Struct : PyStructure :=
  { files := [c8File], classes := [], functions := [], imports := [],
    files_parsed := 1 }

/-- The one-file index used by the C8 witness. -/
def c8WitnessStruct : PyStructure :=
  { files := [{ file_path := "auth.py", classes := [], functions := [],
                imports := [], docstring := some "" }],
    classes := [], functions := [], imports := [], files_parsed := 1 }

/-- C8 counterexample: the claim scores +1.5 per TERM found in any class
name, so the query alpha would give the file of classes Alpha and
Alphabet the score 1.5; the code adds 1.5 once per (class, term) pair and
returns 3.0 for it.  So the returned list differs from the claimed
one. -/
theorem C8_counterexample_per_pair_not_per_term :
    get_relevant_files "alpha" c8Struct 5 ≠
      .ok (get_relevant_files_claimed "alpha" c8Struct 5) := by
  have hterm : pySplitWs (pyLower "alpha") = ["alpha"] := by decide
  have b1 : pyStrIn "alpha" (pyLower (pathBaseName "m.py")) = false := by decide
  have b2 : pyStrIn "alpha" (pyLower "Alpha") = true := by decide
  have b3 : pyStrIn "alpha" (pyLower "Alphabet") = true := by decide
  have b4 : pyStrIn "alpha" (pyLower "") = false := by decide
  have hpair : pairScore ["alpha"] c8File = 3 := by
    simp [pairScore, c8File, List.countP_cons, b1, b2, b3, b4]
    norm_num
  have hclaimed : claimedScore ["alpha"] c8File = 3/2 := by
    simp [claimedScore, c8File, b1, b2, b3, b4]
  have hdoc : ∀ fi ∈ c8Struct.files, fi.docstring ≠ none := by decide
  have hfm : c8Struct.files.filterMap (fun fi =>
      if pairScore ["alpha"] fi > 0 then
        some ({ file_path := fi.file_path,
                relevance_score := pairScore ["alpha"] fi } : ScoredFile)
      else none) = [{ file_path := "m.py", relevance_score := 3 }] := by
    simp only [c8Struct, List.filterMap_cons, List.filterMap_nil, hpair]
    norm_num
    rfl
  have hL : get_relevant_files "alpha" c8Struct 5 =
      .ok [{ file_path := "m.py", relevance_score := 3 }] := by
    unfold get_relevant_files
    dsimp only
    rw [rankFiles_eq_filterMap _ _ hdoc, hterm, hfm]
    simp [sortScoredDesc, insertScoredDesc]
  have hfmc : c8Struct.files.filterMap (fun fi =>
      if claimedScore ["alpha"] fi > 0 then
        some ({ file_path := fi.file_path,
                relevance_score := claimedScore ["alpha"] fi } : ScoredFile)
      else none) = [{ file_path := "m.py", relevance_score := 3/2 }] := by
    simp only [c8Struct, List.filterMap_cons, List.filterMap_nil, hclaimed]
    norm_num
    rfl
  have hR : get_relevant_files_claimed "alpha" c8Struct 5 =
      [{ file_path := "m.py", relevance_score := 3/2 }] := by
    unfold get_relevant_files_claimed
    rw [hterm, hfmc]
    simp [sortScoredDesc, insertScoredDesc]
  intro hEq
  rw [hL, hR] at hEq
  have hhead : ({ file_path := "m.py", relevance_score := 3 } : ScoredFile) =
      { file_path := "m.py", relevance_score := 3/2 } :=
    List.head_eq_of_cons_eq (Except.ok.inj hEq)
  have h32 : (3 : ℚ) = 3/2 := congrArg ScoredFile.relevance_score hhead
  norm_num at h32

/-- C8 amended: when every indexed docstring is a string (otherwise the
ranker raises, claim C10), get_relevant_files returns exactly the files
of strictly positive score — where the score is accumulated PER MATCHING
PAIR: 2 per term in the base name, 3/2 per (class, term) pair, 1 per
(function, term) pair, 1/2 per term in the docstring — stably sorted by
descending score and truncated to top_k.  The second conjunct derives
that any returned list is sorted by descending relevance score; the
third states the stability of the sort explicitly: for every score
value, the entries of that score appear in the sorted candidate list in
exactly their original index order. -/
theorem C8_ranker_per_pair_scoring (query : String) (struct : PyStructure)
    (top_k : Nat) (h : ∀ fi ∈ struct.files, fi.docstring ≠ none) :
    get_relevant_files query struct top_k =
      .ok ((sortScoredDesc (struct.files.filterMap (fun fi =>
        if pairScore (pySplitWs (pyLower query)) fi > 0 then
          some { file_path := fi.file_path,
                 relevance_score := pairScore (pySplitWs (pyLower query)) fi }
        else none))).take top_k) ∧
    (∀ res, get_relevant_files query struct top_k = .ok res →
      List.Pairwise (fun a b => b.relevance_score ≤ a.relevance_score) res) ∧
    (∀ q : ℚ, (sortScoredDesc (struct.files.filterMap (fun fi =>
        if pairScore (pySplitWs (pyLower query)) fi > 0 then
          some { file_path := fi.file_path,
                 relevance_score := pairScore (pySplitWs (pyLower query)) fi }
        else none))).filter (fun e => e.relevance_score == q) =
      (struct.files.filterMap (fun fi =>
        if pairScore (pySplitWs (pyLower query)) fi > 0 then
          some { file_path := fi.file_path,
                 relevance_score := pairScore (pySplitWs (pyLower query)) fi }
        else none)).filter (fun e => e.relevance_score == q)) := by
  have h1 : get_relevant_files query struct top_k =
      .ok ((sortScoredDesc (struct.files.filterMap (fun fi =>
        if pairScore (pySplitWs (pyLower query)) fi > 0 then
          some { file_path := fi.file_path,
                 relevance_score := pairScore (pySplitWs (pyLower query)) fi }
        else none))).take top_k) := by
    unfold get_relevant_files
    dsimp only
    rw [rankFiles_eq_filterMap _ _ h]
  refine ⟨h1, ?_, fun q => sortScoredDesc_stable q _⟩
  intro res hres
  rw [h1] at hres
  have hres2 := Except.ok.inj hres
  rw [← hres2]
  exact List.Pairwise.sublist (List.take_sublist _ _) (sortScoredDesc_sorted _)

/-- C8 witness: the amended ranker theorem applied to a one-file index
whose docstring is present. -/
theorem C8_ranker_per_pair_scoring_witness :
    (∀ fi ∈ c8WitnessStruct.files, fi.docstring ≠ none) ∧
    (get_relevant_files "auth" c8WitnessStruct 5 =
      .ok ((sortScoredDesc (c8WitnessStruct.files.filterMap (fun fi =>
        if pairScore (pySplitWs (pyLower "auth")) fi > 0 then
          some { file_path := fi.file_path,
                 relevance_score := pairScore (pySplitWs (pyLower "auth")) fi }
        else none))).take 5) ∧
    (∀ res, get_relevant_files "auth" c8WitnessStruct 5 = .ok res →
      List.Pairwise (fun a b => b.relevance_score ≤ a.relevance_score) res) ∧
    (∀ q : ℚ, (sortScoredDesc (c8WitnessStruct.files.filterMap (fun fi =>
        if pairScore (pySplitWs (pyLower "auth")) fi > 0 then
          some { file_path := fi.file_path,
                 relevance_score := pairScore (pySplitWs (pyLower "auth")) fi }
        else none))).filter (fun e => e.relevance_score == q) =
      (c8WitnessStruct.files.filterMap (fun fi =>
        if pairScore (pySplitWs (pyLower "auth")) fi > 0 then
          some { file_path := fi.file_path,
                 relevance_score := pairScore (pySplitWs (pyLower "auth")) fi }
        else none)).filter (fun e => e.relevance_score == q))) :=
  ⟨by decide, C8_ranker_per_pair_scoring "auth" c8WitnessStruct 5 (by decide)⟩

/-! ## Graph-builder lemmas

The invariant claims about build_dependency_graph are proved under the
assumption that no indexed file path contains the reserved separator ::
used to key declaration nodes (true of every path produced by indexing a
source tree; a path containing :: could collide with a declaration node
key). -/

/-- A list starts with itself followed by anything. -/
theorem listStartsWith_append (l t : List Char) :
    listStartsWith l (l ++ t) = true := by
  induction l with
  | nil => rfl
  | cons a as ih => simp [listStartsWith, ih]

/-- A list occurs in itself followed by anything. -/
theorem listSubstr_self_append (l t : List Char) :
    listSubstr l (l ++ t) = true := by
  cases l with
  | nil => cases t <;> simp [listSubstr, listStartsWith]
  | cons c cs =>
    rw [List.cons_append]
    simp only [listSubstr]
    rw [← List.cons_append, listStartsWith_append]
    rfl

/-- Substring occurrence survives prepending on the left. -/
theorem listSubstr_append_left (needle l2 : List Char)
    (h : listSubstr needle l2 = true) (l1 : List Char) :
    listSubstr needle (l1 ++ l2) = true := by
  induction l1 with
  | nil => simpa
  | cons c cs ih =>
    rw [List.cons_append]
    simp only [listSubstr, ih, Bool.or_true]

/-- The separator :: occurs in every declaration node key. -/
theorem pyStrIn_sep_mid (fp nm : String) :
    pyStrIn "::" (fp ++ "::" ++ nm) = true := by
  unfold pyStrIn
  have h1 : (fp ++ "::" ++ nm).data =
      fp.data ++ (("::" : String).data ++ nm.data) := by
    rw [String.data_append, String.data_append, List.append_assoc]
  rw [h1]
  exact listSubstr_append_left _ _ (listSubstr_self_append _ _) _

/-- Strings on opposite sides of the :: test are different. -/
theorem ne_of_sep (a b : String) (ha : pyStrIn "::" a = true)
    (hb : pyStrIn "::" b = false) : a ≠ b := by
  intro h
  rw [h, hb] at ha
  cases ha

/-- Two edges with the same endpoint pair are forbidden (networkx DiGraph
keeps one edge per ordered pair). -/
def pairNe (e1 e2 : GEdge) : Prop :=
  ¬ (e1.source = e2.source ∧ e1.target = e2.target)

/-- Every edge is either a contains edge whose target is a declaration
key (contains ::), or an imports edge between two indexed file paths. -/
def EdgesOk (fps : List String) (g : NxGraph) : Prop :=
  ∀ e ∈ g.edges, (e.type = "contains" ∧ pyStrIn "::" e.target = true) ∨
    (e.type = "imports" ∧ e.source ∈ fps ∧ e.target ∈ fps)

/-- Every class or function node has a declaration key as id, an owning
file recorded in its file attribute, and a contains edge from that owning
file to it. -/
def DeclOk (g : NxGraph) : Prop :=
  ∀ n ∈ g.nodes, (n.data.type = some "class" ∨ n.data.type = some "function") →
    pyStrIn "::" n.id = true ∧ ∃ fp, n.data.file = some fp ∧
      ∃ e ∈ g.edges, e.source = fp ∧ e.target = n.id ∧ e.type = "contains"

/-- The running invariant of build_dependency_graph. -/
def GraphInv (fps : List String) (g : NxGraph) : Prop :=
  List.Pairwise pairNe g.edges ∧ EdgesOk fps g ∧ DeclOk g

/-- The graph has a node of type file with the given id. -/
def hasFileNode (g : NxGraph) (fp : String) : Prop :=
  ∃ n ∈ g.nodes, n.id = fp ∧ n.data.type = some "file"

/-- ensureNode does not touch the edges. -/
theorem ensureNode_edges (g : NxGraph) (nid : String) :
    (ensureNode g nid).edges = g.edges := by
  unfold ensureNode
  split_ifs <;> rfl

/-- addEdge does not touch the nodes beyond the two ensureNode calls. -/
theorem addEdge_nodes (g : NxGraph) (u v ty : String) :
    (addEdge g u v ty).nodes = (ensureNode (ensureNode g u) v).nodes := by
  unfold addEdge
  dsimp only
  split_ifs <;> rfl

/-- addNodeTypeOnly does not touch the edges. -/
theorem addNodeTypeOnly_edges (g : NxGraph) (nid ty : String) :
    (addNodeTypeOnly g nid ty).edges = g.edges := by
  unfold addNodeTypeOnly
  split_ifs <;> rfl

/-- addNodeTypeFile does not touch the edges. -/
theorem addNodeTypeFile_edges (g : NxGraph) (nid ty fp : String) :
    (addNodeTypeFile g nid ty fp).edges = g.edges := by
  unfold addNodeTypeFile
  split_ifs <;> rfl

/-- A node of ensureNode is an old node or carries no attributes. -/
theorem ensureNode_nodes_cases (g : NxGraph) (nid : String) (n : GNode)
    (hn : n ∈ (ensureNode g nid).nodes) :
    n ∈ g.nodes ∨ n.data = ⟨none, none⟩ := by
  unfold ensureNode at hn
  split_ifs at hn
  · exact Or.inl hn
  · rcases List.mem_append.mp hn with h | h
    · exact Or.inl h
    · rcases List.mem_singleton.mp h with rfl
      exact Or.inr rfl

/-- ensureNode keeps every existing node. -/
theorem ensureNode_nodes_sub (g : NxGraph) (nid : String) (n : GNode)
    (hn : n ∈ g.nodes) : n ∈ (ensureNode g nid).nodes := by
  unfold ensureNode
  split_ifs
  · exact hn
  · exact List.mem_append_left _ hn

/-- ensureNode keeps file nodes. -/
theorem ensureNode_hasFileNode (g : NxGraph) (nid p : String)
    (h : hasFileNode g p) : hasFileNode (ensureNode g nid) p := by
  rcases h with ⟨n, hn, hid, hty⟩
  exact ⟨n, ensureNode_nodes_sub g nid n hn, hid, hty⟩

/-- addEdge keeps file nodes. -/
theorem addEdge_hasFileNode (g : NxGraph) (u v ty p : String)
    (h : hasFileNode g p) : hasFileNode (addEdge g u v ty) p := by
  rcases h with ⟨n, hn, hid, hty⟩
  refine ⟨n, ?_, hid, hty⟩
  rw [addEdge_nodes]
  exact ensureNode_nodes_sub _ _ _ (ensureNode_nodes_sub _ _ _ hn)

/-- addEdge keeps the one-edge-per-pair discipline. -/
theorem addEdge_pairwise (g : NxGraph) (u v ty : String)
    (h : List.Pairwise pairNe g.edges) :
    List.Pairwise pairNe (addEdge g u v ty).edges := by
  unfold addEdge
  dsimp only
  rw [ensureNode_edges, ensureNode_edges]
  split_ifs with hex
  · show List.Pairwise pairNe (g.edges.map _)
    rw [List.pairwise_map]
    refine h.imp ?_
    intro a b hab
    unfold pairNe at hab ⊢
    intro hcontra
    apply hab
    constructor
    · have := hcontra.1
      split_ifs at this <;> simpa using this
    · have := hcontra.2
      split_ifs at this <;> simpa using this
  · show List.Pairwise pairNe (g.edges ++ [⟨u, v, ty⟩])
    rw [List.pairwise_append]
    refine ⟨h, List.pairwise_singleton _ _, ?_⟩
    intro a ha b hb
    rcases List.mem_singleton.mp hb with rfl
    unfold pairNe
    intro hcontra
    have : g.edges.any (fun e => e.source == u && e.target == v) = true := by
      refine List.any_eq_true.mpr ⟨a, ha, ?_⟩
      simp [hcontra.1, hcontra.2]
    exact hex this

/-- addEdge really records the requested edge. -/
theorem addEdge_creates (g : NxGraph) (u v ty : String) :
    ∃ e ∈ (addEdge g u v ty).edges,
      e.source = u ∧ e.target = v ∧ e.type = ty := by
  unfold addEdge
  dsimp only
  rw [ensureNode_edges, ensureNode_edges]
  split_ifs with hex
  · rcases List.any_eq_true.mp hex with ⟨e0, he0, hp⟩
    have hp2 : e0.source = u ∧ e0.target = v := by
      simpa [Bool.and_eq_true, beq_iff_eq] using hp
    refine ⟨{ e0 with type := ty }, ?_, hp2.1, hp2.2, rfl⟩
    refine List.mem_map.mpr ⟨e0, he0, ?_⟩
    rw [if_pos hp2]
  · exact ⟨⟨u, v, ty⟩, List.mem_append_right _ (List.mem_singleton.mpr rfl),
      rfl, rfl, rfl⟩

/-- An edge whose pair differs from the inserted one survives addEdge
unchanged. -/
theorem addEdge_mem_of_ne (g : NxGraph) (u v ty : String) (e0 : GEdge)
    (he0 : e0 ∈ g.edges) (hne : ¬ (e0.source = u ∧ e0.target = v)) :
    e0 ∈ (addEdge g u v ty).edges := by
  unfold addEdge
  dsimp only
  rw [ensureNode_edges, ensureNode_edges]
  split_ifs with hex
  · refine List.mem_map.mpr ⟨e0, he0, ?_⟩
    rw [if_neg hne]
  · exact List.mem_append_left _ he0

/-- Adding a contains edge towards a declaration key keeps the edge
shape invariant. -/
theorem addEdge_contains_edgesOk (fps : List String) (g : NxGraph)
    (u v : String) (hv : pyStrIn "::" v = true) (h : EdgesOk fps g) :
    EdgesOk fps (addEdge g u v "contains") := by
  unfold addEdge
  dsimp only
  rw [ensureNode_edges, ensureNode_edges]
  split_ifs with hex
  · intro e he
    rcases List.mem_map.mp he with ⟨e0, he0, rfl⟩
    by_cases hp : e0.source = u ∧ e0.target = v
    · rw [if_pos hp]
      refine Or.inl ⟨rfl, ?_⟩
      show pyStrIn "::" e0.target = true
      rw [hp.2]
      exact hv
    · rw [if_neg hp]
      exact h e0 he0
  · intro e he
    rcases List.mem_append.mp he with he1 | he1
    · exact h e he1
    · rcases List.mem_singleton.mp he1 with rfl
      exact Or.inl ⟨rfl, hv⟩

/-- Adding an imports edge between two indexed file paths keeps the edge
shape invariant. -/
theorem addEdge_imports_edgesOk (fps : List String) (g : NxGraph)
    (u v : String) (hu : u ∈ fps) (hv : v ∈ fps) (h : EdgesOk fps g) :
    EdgesOk fps (addEdge g u v "imports") := by
  unfold addEdge
  dsimp only
  rw [ensureNode_edges, ensureNode_edges]
  split_ifs with hex
  · intro e he
    rcases List.mem_map.mp he with ⟨e0, he0, rfl⟩
    by_cases hp : e0.source = u ∧ e0.target = v
    · rw [if_pos hp]
      exact Or.inr ⟨rfl, by rw [hp.1]; exact hu, by rw [hp.2]; exact hv⟩
    · rw [if_neg hp]
      exact h e0 he0
  · intro e he
    rcases List.mem_append.mp he with he1 | he1
    · exact h e he1
    · rcases List.mem_singleton.mp he1 with rfl
      exact Or.inr ⟨rfl, hu, hv⟩

/-- A contains witness edge survives any addEdge with type contains: it
is either untouched or re-typed to contains again. -/
theorem addEdge_contains_witness (g : NxGraph) (u v : String) (e0 : GEdge)
    (he0 : e0 ∈ g.edges) (hty : e0.type = "contains") :
    ∃ e ∈ (addEdge g u v "contains").edges,
      e.source = e0.source ∧ e.target = e0.target ∧ e.type = "contains" := by
  by_cases hp : e0.source = u ∧ e0.target = v
  · rcases addEdge_creates g u v "contains" with ⟨e, he, hs, htg, hty2⟩
    exact ⟨e, he, by rw [hs, hp.1], by rw [htg, hp.2], hty2⟩
  · exact ⟨e0, addEdge_mem_of_ne g u v "contains" e0 he0 hp, rfl, rfl, hty⟩

/-- Node membership after addNodeTypeFile: an untouched old node with a
different id, or the node keyed nid carrying the given attributes. -/
theorem addNodeTypeFile_nodes_cases (g : NxGraph) (nid ty fp : String)
    (n : GNode) (hn : n ∈ (addNodeTypeFile g nid ty fp).nodes) :
    (n ∈ g.nodes ∧ n.id ≠ nid) ∨ (n.id = nid ∧ n.data = ⟨some ty, some fp⟩) := by
  unfold addNodeTypeFile at hn
  split_ifs at hn with hex
  · rcases List.mem_map.mp hn with ⟨n0, hn0, rfl⟩
    by_cases hid : n0.id = nid
    · rw [if_pos hid]
      exact Or.inr ⟨hid, rfl⟩
    · rw [if_neg hid]
      exact Or.inl ⟨hn0, hid⟩
  · rcases List.mem_append.mp hn with h1 | h1
    · left
      refine ⟨h1, ?_⟩
      intro hid
      apply hex
      exact List.any_eq_true.mpr ⟨n, h1, by simp [hid]⟩
    · rcases List.mem_singleton.mp h1 with rfl
      exact Or.inr ⟨rfl, rfl⟩

/-- An old node with a different id survives addNodeTypeFile unchanged. -/
theorem addNodeTypeFile_keeps (g : NxGraph) (nid ty fp : String) (n : GNode)
    (hn : n ∈ g.nodes) (hne : n.id ≠ nid) :
    n ∈ (addNodeTypeFile g nid ty fp).nodes := by
  unfold addNodeTypeFile
  split_ifs with hex
  · refine List.mem_map.mpr ⟨n, hn, ?_⟩
    rw [if_neg hne]
  · exact List.mem_append_left _ hn

/-- Registering a file node: the invariant is kept (the node it touches
becomes a file node, never a declaration node), existing file nodes stay,
and afterwards the path has its file node. -/
theorem addNodeTypeOnly_file (fps : List String) (g : NxGraph) (fp : String)
    (hg : GraphInv fps g) :
    GraphInv fps (addNodeTypeOnly g fp "file") ∧
    (∀ p, hasFileNode g p → hasFileNode (addNodeTypeOnly g fp "file") p) ∧
    hasFileNode (addNodeTypeOnly g fp "file") fp := by
  obtain ⟨hnd, hsh, hdecl⟩ := hg
  unfold addNodeTypeOnly
  dsimp only
  split_ifs with hex
  · refine ⟨⟨hnd, hsh, ?_⟩, ?_, ?_⟩
    · intro n hn ht
      rcases List.mem_map.mp hn with ⟨n0, hn0, rfl⟩
      by_cases hid : n0.id = fp
      · rw [if_pos hid] at ht
        simp at ht
      · rw [if_neg hid] at ht ⊢
        exact hdecl n0 hn0 ht
    · intro p hp
      rcases hp with ⟨n0, hn0, hid, hty0⟩
      refine ⟨if n0.id = fp then
          { n0 with data := { n0.data with type := some "file" } } else n0,
        List.mem_map.mpr ⟨n0, hn0, rfl⟩, ?_, ?_⟩
      · split_ifs <;> exact hid
      · split_ifs <;> simp [hty0]
    · rcases List.any_eq_true.mp hex with ⟨n0, hn0, hb⟩
      have hid0 : n0.id = fp := by simpa using hb
      refine ⟨{ n0 with data := { n0.data with type := some "file" } },
        List.mem_map.mpr ⟨n0, hn0, by rw [if_pos hid0]⟩, hid0, rfl⟩
  · refine ⟨⟨hnd, hsh, ?_⟩, ?_, ?_⟩
    · intro n hn ht
      rcases List.mem_append.mp hn with h1 | h1
      · exact hdecl n h1 ht
      · rcases List.mem_singleton.mp h1 with rfl
        simp at ht
    · intro p hp
      rcases hp with ⟨n0, hn0, hid, hty0⟩
      exact ⟨n0, List.mem_append_left _ hn0, hid, hty0⟩
    · exact ⟨⟨fp, ⟨some "file", none⟩⟩,
        List.mem_append_right _ (List.mem_singleton.mpr rfl), rfl, rfl⟩

/-- One declaration step (class or function node plus its contains edge)
keeps the invariant and keeps the file nodes of separator-free paths. -/
theorem addDeclNode_inv (fps : List String) (fp ty : String) (g : NxGraph)
    (decl : NamedDecl) (hg : GraphInv fps g) :
    GraphInv fps (addDeclNode fp ty g decl) ∧
    (∀ p, pyStrIn "::" p = false → hasFileNode g p →
      hasFileNode (addDeclNode fp ty g decl) p) := by
  obtain ⟨hnd, hsh, hdecl⟩ := hg
  have hcn : pyStrIn "::" (fp ++ "::" ++ decl.name) = true :=
    pyStrIn_sep_mid fp decl.name
  have hedges1 : (addNodeTypeFile g (fp ++ "::" ++ decl.name) ty fp).edges =
      g.edges := addNodeTypeFile_edges _ _ _ _
  unfold addDeclNode
  dsimp only
  constructor
  · refine ⟨?_, ?_, ?_⟩
    · exact addEdge_pairwise _ _ _ _ (by rw [hedges1]; exact hnd)
    · refine addEdge_contains_edgesOk fps _ _ _ hcn ?_
      intro e he
      rw [hedges1] at he
      exact hsh e he
    · intro n hn ht
      rw [addEdge_nodes] at hn
      rcases ensureNode_nodes_cases _ _ _ hn with hn1 | hdata
      · rcases ensureNode_nodes_cases _ _ _ hn1 with hn2 | hdata
        · rcases addNodeTypeFile_nodes_cases _ _ _ _ _ hn2 with ⟨hng, hne⟩ | ⟨hid, hdata⟩
          · rcases hdecl n hng ht with ⟨hsep, fp0, hfile, e0, he0, hs, htg, hty0⟩
            refine ⟨hsep, fp0, hfile, ?_⟩
            rcases addEdge_contains_witness
                (addNodeTypeFile g (fp ++ "::" ++ decl.name) ty fp) fp
                (fp ++ "::" ++ decl.name) e0 (by rw [hedges1]; exact he0) hty0
              with ⟨e, he, hs2, ht2, hty2⟩
            exact ⟨e, he, by rw [hs2, hs], by rw [ht2, htg], hty2⟩
          · refine ⟨by rw [hid]; exact hcn, fp, by rw [hdata], ?_⟩
            rcases addEdge_creates
                (addNodeTypeFile g (fp ++ "::" ++ decl.name) ty fp) fp
                (fp ++ "::" ++ decl.name) "contains"
              with ⟨e, he, hs2, ht2, hty2⟩
            exact ⟨e, he, hs2, by rw [ht2, hid], hty2⟩
        · rw [hdata] at ht
          simp at ht
      · rw [hdata] at ht
        simp at ht
  · intro p hp hfn
    apply addEdge_hasFileNode
    rcases hfn with ⟨n0, hn0, hid, hty0⟩
    refine ⟨n0, addNodeTypeFile_keeps _ _ _ _ _ hn0 ?_, hid, hty0⟩
    rw [hid]
    exact (ne_of_sep _ _ hcn hp).symm

/-- A whole class- or function-list fold of declaration steps keeps the
invariant and the file nodes of separator-free paths. -/
theorem foldl_addDeclNode_inv (fps : List String) (fp ty : String)
    (ds : List NamedDecl) (g : NxGraph) (hg : GraphInv fps g) :
    GraphInv fps (ds.foldl (addDeclNode fp ty) g) ∧
    (∀ p, pyStrIn "::" p = false → hasFileNode g p →
      hasFileNode (ds.foldl (addDeclNode fp ty) g) p) := by
  induction ds generalizing g with
  | nil => exact ⟨hg, fun p _ h => h⟩
  | cons d ds ih =>
    rw [List.foldl_cons]
    rcases addDeclNode_inv fps fp ty g d hg with ⟨h1, h2⟩
    rcases ih (addDeclNode fp ty g d) h1 with ⟨h3, h4⟩
    exact ⟨h3, fun p hp h => h4 p hp (h2 p hp h)⟩

/-- The first pass of build_dependency_graph: the invariant holds, file
nodes of separator-free paths persist, and every processed file has its
file node. -/
theorem phase1_fold (fps : List String) (files : List FileInfo)
    (hfiles : ∀ fi ∈ files, pyStrIn "::" fi.file_path = false) (g : NxGraph)
    (hg : GraphInv fps g) :
    GraphInv fps (files.foldl (fun g file_info =>
      let g := addNodeTypeOnly g file_info.file_path "file"
      let g := file_info.classes.foldl (addDeclNode file_info.file_path "class") g
      let g := file_info.functions.foldl (addDeclNode file_info.file_path "function") g
      g) g) ∧
    (∀ p, pyStrIn "::" p = false → hasFileNode g p →
      hasFileNode (files.foldl (fun g file_info =>
        let g := addNodeTypeOnly g file_info.file_path "file"
        let g := file_info.classes.foldl (addDeclNode file_info.file_path "class") g
        let g := file_info.functions.foldl (addDeclNode file_info.file_path "function") g
        g) g) p) ∧
    (∀ fi ∈ files, hasFileNode (files.foldl (fun g file_info =>
      let g := addNodeTypeOnly g file_info.file_path "file"
      let g := file_info.classes.foldl (addDeclNode file_info.file_path "class") g
      let g := file_info.functions.foldl (addDeclNode file_info.file_path "function") g
      g) g) fi.file_path) := by
  induction files generalizing g with
  | nil => exact ⟨hg, fun p _ h => h, fun fi hfi => absurd hfi (List.not_mem_nil fi)⟩
  | cons fi fs ih =>
    have hfp : pyStrIn "::" fi.file_path = false :=
      hfiles fi (List.mem_cons_self fi fs)
    rcases addNodeTypeOnly_file fps g fi.file_path hg with ⟨hA, hApres, hAfile⟩
    rcases foldl_addDeclNode_inv fps fi.file_path "class" fi.classes _ hA
      with ⟨hB, hBpres⟩
    rcases foldl_addDeclNode_inv fps fi.file_path "function" fi.functions _ hB
      with ⟨hC, hCpres⟩
    rw [List.foldl_cons]
    dsimp only
    rcases ih (fun f hf => hfiles f (List.mem_cons_of_mem fi hf)) _ hC
      with ⟨hD, hDpres, hDfiles⟩
    refine ⟨hD, ?_, ?_⟩
    · intro p hp h
      exact hDpres p hp (hCpres p hp (hBpres p hp (hApres p h)))
    · intro f hf
      rcases List.mem_cons.mp hf with rfl | hf2
      · exact hDpres f.file_path hfp (hCpres _ hfp (hBpres _ hfp hAfile))
      · exact hDfiles f hf2

/-- Adding an imports edge between two indexed (separator-free) file
paths keeps the whole invariant and all file nodes. -/
theorem addEdge_imports_inv (fps : List String) (g : NxGraph) (u v : String)
    (hu : u ∈ fps) (hv : v ∈ fps) (hfps : ∀ p ∈ fps, pyStrIn "::" p = false)
    (hg : GraphInv fps g) :
    GraphInv fps (addEdge g u v "imports") ∧
    (∀ p, hasFileNode g p → hasFileNode (addEdge g u v "imports") p) := by
  obtain ⟨hnd, hsh, hdecl⟩ := hg
  refine ⟨⟨addEdge_pairwise _ _ _ _ hnd,
    addEdge_imports_edgesOk fps g u v hu hv hsh, ?_⟩,
    fun p hfn => addEdge_hasFileNode _ _ _ _ _ hfn⟩
  intro n hn ht
  rw [addEdge_nodes] at hn
  rcases ensureNode_nodes_cases _ _ _ hn with hn1 | hdata
  · rcases ensureNode_nodes_cases _ _ _ hn1 with hn2 | hdata
    · rcases hdecl n hn2 ht with ⟨hsep, fp0, hfile, e0, he0, hs, htg, hty0⟩
      refine ⟨hsep, fp0, hfile, e0, ?_, hs, htg, hty0⟩
      apply addEdge_mem_of_ne _ _ _ _ _ he0
      intro hpair
      have hvfree : pyStrIn "::" v = false := hfps v hv
      have hcontra : pyStrIn "::" e0.target = true := by
        rw [htg]
        exact hsep
      rw [hpair.2, hvfree] at hcontra
      cases hcontra
    · rw [hdata] at ht
      simp at ht
  · rw [hdata] at ht
    simp at ht

/-- The target fold of one from-import keeps the invariant and the file
nodes. -/
theorem phase2_targets_fold (fps : List String)
    (hfps : ∀ p ∈ fps, pyStrIn "::" p = false) (u : String) (hu : u ∈ fps)
    (ts : List String) (hts : ∀ t ∈ ts, t ∈ fps) (g : NxGraph)
    (hg : GraphInv fps g) :
    GraphInv fps (ts.foldl (fun g target =>
      if target ≠ u then addEdge g u target "imports" else g) g) ∧
    (∀ p, hasFileNode g p → hasFileNode (ts.foldl (fun g target =>
      if target ≠ u then addEdge g u target "imports" else g) g) p) := by
  induction ts generalizing g with
  | nil => exact ⟨hg, fun p hp => hp⟩
  | cons t ts ih =>
    rw [List.foldl_cons]
    have ht : t ∈ fps := hts t (List.mem_cons_self t ts)
    have hts2 : ∀ x ∈ ts, x ∈ fps := fun x hx => hts x (List.mem_cons_of_mem t hx)
    by_cases hne : t ≠ u
    · rw [if_pos hne]
      rcases addEdge_imports_inv fps g u t hu ht hfps hg with ⟨h1, h2⟩
      rcases ih hts2 _ h1 with ⟨h3, h4⟩
      exact ⟨h3, fun p hp => h4 p (h2 p hp)⟩
    · rw [if_neg hne]
      exact ih hts2 g hg

/-- The import fold of one file keeps the invariant and the file nodes.
sfiles is the file list the import targets are resolved against. -/
theorem phase2_imports_fold (fps : List String)
    (hfps : ∀ p ∈ fps, pyStrIn "::" p = false) (sfiles : List FileInfo)
    (hsf : ∀ f ∈ sfiles, f.file_path ∈ fps) (u : String) (hu : u ∈ fps)
    (imps : List ImportInfo) (g : NxGraph) (hg : GraphInv fps g) :
    GraphInv fps (imps.foldl (fun g imp =>
      match imp with
      | .direct _ _ => g
      | .fromImport module _ _ =>
        let target_files := sfiles.filterMap (fun f =>
          if pyStrIn (pyReplaceChar '.' '/' module) f.file_path ||
              pyStrIn (pyLastComponent '.' module) f.file_path then
            some f.file_path
          else none)
        target_files.foldl (fun g target =>
          if target ≠ u then addEdge g u target "imports" else g) g) g) ∧
    (∀ p, hasFileNode g p → hasFileNode (imps.foldl (fun g imp =>
      match imp with
      | .direct _ _ => g
      | .fromImport module _ _ =>
        let target_files := sfiles.filterMap (fun f =>
          if pyStrIn (pyReplaceChar '.' '/' module) f.file_path ||
              pyStrIn (pyLastComponent '.' module) f.file_path then
            some f.file_path
          else none)
        target_files.foldl (fun g target =>
          if target ≠ u then addEdge g u target "imports" else g) g) g) p) := by
  induction imps generalizing g with
  | nil => exact ⟨hg, fun p hp => hp⟩
  | cons imp rest ih =>
    rw [List.foldl_cons]
    cases imp with
    | direct m a => exact ih g hg
    | fromImport module nm al =>
      have hts : ∀ t ∈ sfiles.filterMap (fun f =>
          if pyStrIn (pyReplaceChar '.' '/' module) f.file_path ||
              pyStrIn (pyLastComponent '.' module) f.file_path then
            some f.file_path
          else none), t ∈ fps := by
        intro t htm
        rcases List.mem_filterMap.mp htm with ⟨f, hf, heq⟩
        split_ifs at heq with hc
        rcases Option.some.inj heq with rfl
        exact hsf f hf
      rcases phase2_targets_fold fps hfps u hu _ hts g hg with ⟨h1, h2⟩
      rcases ih _ h1 with ⟨h3, h4⟩
      exact ⟨h3, fun p hp => h4 p (h2 p hp)⟩

/-- The second pass of build_dependency_graph keeps the invariant and the
file nodes. -/
theorem phase2_files_fold (fps : List String)
    (hfps : ∀ p ∈ fps, pyStrIn "::" p = false) (sfiles : List FileInfo)
    (hsf : ∀ f ∈ sfiles, f.file_path ∈ fps) (files2 : List FileInfo)
    (hf2 : ∀ fi ∈ files2, fi.file_path ∈ fps) (g : NxGraph)
    (hg : GraphInv fps g) :
    GraphInv fps (files2.foldl (fun g file_info =>
      file_info.imports.foldl (fun g imp =>
        match imp with
        | .direct _ _ => g
        | .fromImport module _ _ =>
          let target_files := sfiles.filterMap (fun f =>
            if pyStrIn (pyReplaceChar '.' '/' module) f.file_path ||
                pyStrIn (pyLastComponent '.' module) f.file_path then
              some f.file_path
            else none)
          target_files.foldl (fun g target =>
            if target ≠ file_info.file_path then
              addEdge g file_info.file_path target "imports"
            else g) g) g) g) ∧
    (∀ p, hasFileNode g p → hasFileNode (files2.foldl (fun g file_info =>
      file_info.imports.foldl (fun g imp =>
        match imp with
        | .direct _ _ => g
        | .fromImport module _ _ =>
          let target_files := sfiles.filterMap (fun f =>
            if pyStrIn (pyReplaceChar '.' '/' module) f.file_path ||
                pyStrIn (pyLastComponent '.' module) f.file_path then
              some f.file_path
            else none)
          target_files.foldl (fun g target =>
            if target ≠ file_info.file_path then
              addEdge g file_info.file_path target "imports"
            else g) g) g) g) p) := by
  induction files2 generalizing g with
  | nil => exact ⟨hg, fun p hp => hp⟩
  | cons fi fs ih =>
    rw [List.foldl_cons]
    have hu : fi.file_path ∈ fps := hf2 fi (List.mem_cons_self fi fs)
    have hf2r : ∀ f ∈ fs, f.file_path ∈ fps :=
      fun f hf => hf2 f (List.mem_cons_of_mem fi hf)
    rcases phase2_imports_fold fps hfps sfiles hsf fi.file_path hu
      fi.imports g hg with ⟨h1, h2⟩
    rcases ih hf2r _ h1 with ⟨h3, h4⟩
    exact ⟨h3, fun p hp => h4 p (h2 p hp)⟩

/-- With one edge per (source, target) pair, the witness contains edge is
the only edge from the owning file to the declaration node. -/
theorem filter_pair_contains_one (l : List GEdge)
    (hnd : List.Pairwise pairNe l) (e : GEdge) (he : e ∈ l) (u v : String)
    (hs : e.source = u) (ht : e.target = v) (hty : e.type = "contains") :
    (l.filter (fun x =>
      x.source == u && x.target == v && x.type == "contains")).length = 1 := by
  have hpe : (fun x : GEdge =>
      x.source == u && x.target == v && x.type == "contains") e = true := by
    simp [hs, ht, hty]
  have hmem : e ∈ l.filter (fun x =>
      x.source == u && x.target == v && x.type == "contains") :=
    List.mem_filter.mpr ⟨he, hpe⟩
  have hpf : List.Pairwise pairNe (l.filter (fun x =>
      x.source == u && x.target == v && x.type == "contains")) :=
    hnd.filter _
  cases hf : l.filter (fun x =>
      x.source == u && x.target == v && x.type == "contains") with
  | nil =>
    rw [hf] at hmem
    cases hmem
  | cons a as =>
    cases as with
    | nil => rfl
    | cons b bs =>
      exfalso
      rw [hf] at hpf
      have hab : pairNe a b :=
        (List.pairwise_cons.mp hpf).1 b (List.mem_cons_self b bs)
      have hma : a ∈ l.filter (fun x =>
          x.source == u && x.target == v && x.type == "contains") := by
        rw [hf]
        exact List.mem_cons_self a (b :: bs)
      have hmb : b ∈ l.filter (fun x =>
          x.source == u && x.target == v && x.type == "contains") := by
        rw [hf]
        exact List.mem_cons_of_mem a (List.mem_cons_self b bs)
      have hpa := List.of_mem_filter hma
      have hpb := List.of_mem_filter hmb
      simp only [Bool.and_eq_true, beq_iff_eq] at hpa hpb
      exact hab ⟨hpa.1.1.trans hpb.1.1.symm, hpa.1.2.trans hpb.1.2.symm⟩

/-- C9: in every graph built from an index whose file paths avoid the ::
separator, every class node and every function node carries its owning
file and has exactly one contains edge from that owning file node to it,
and every imports edge joins two nodes of type file. -/
theorem C9_contains_unique_imports_between_files (struct : PyStructure)
    (h : ∀ fi ∈ struct.files, pyStrIn "::" fi.file_path = false) :
    (∀ n ∈ (build_dependency_graph struct).nodes,
      (n.data.type = some "class" ∨ n.data.type = some "function") →
      ∃ fp, n.data.file = some fp ∧
        ((build_dependency_graph struct).edges.filter (fun e =>
          e.source == fp && e.target == n.id &&
            e.type == "contains")).length = 1) ∧
    (∀ e ∈ (build_dependency_graph struct).edges, e.type = "imports" →
      (∃ nu ∈ (build_dependency_graph struct).nodes,
        nu.id = e.source ∧ nu.data.type = some "file") ∧
      (∃ nv ∈ (build_dependency_graph struct).nodes,
        nv.id = e.target ∧ nv.data.type = some "file")) := by
  have hfps : ∀ p ∈ struct.files.map (fun f => f.file_path),
      pyStrIn "::" p = false := by
    intro p hp
    rcases List.mem_map.mp hp with ⟨f, hf, rfl⟩
    exact h f hf
  have hg0 : GraphInv (struct.files.map (fun f => f.file_path)) ⟨[], []⟩ :=
    ⟨List.Pairwise.nil, fun e he => absurd he (List.not_mem_nil e),
     fun n hn _ => absurd hn (List.not_mem_nil n)⟩
  have hmem : ∀ f ∈ struct.files,
      f.file_path ∈ struct.files.map (fun f => f.file_path) :=
    fun f hf => List.mem_map.mpr ⟨f, hf, rfl⟩
  rcases phase1_fold (struct.files.map (fun f => f.file_path)) struct.files h
    ⟨[], []⟩ hg0 with ⟨h1, _, h1files⟩
  rcases phase2_files_fold (struct.files.map (fun f => f.file_path)) hfps
    struct.files hmem struct.files hmem _ h1 with ⟨h2, h2pres⟩
  have hfinal : GraphInv (struct.files.map (fun f => f.file_path))
      (build_dependency_graph struct) := h2
  have hfilenodes : ∀ p ∈ struct.files.map (fun f => f.file_path),
      hasFileNode (build_dependency_graph struct) p := by
    intro p hp
    rcases List.mem_map.mp hp with ⟨f, hf, rfl⟩
    exact h2pres f.file_path (h1files f hf)
  obtain ⟨hnd, hsh, hdecl⟩ := hfinal
  constructor
  · intro n hn ht
    rcases hdecl n hn ht with ⟨hsep, fp, hfile, e0, he0, hs, htg, hty0⟩
    exact ⟨fp, hfile,
      filter_pair_contains_one _ hnd e0 he0 fp n.id hs htg hty0⟩
  · intro e he hty
    rcases hsh e he with ⟨hc, _⟩ | ⟨_, hsu, hsv⟩
    · rw [hty] at hc
      simp at hc
    · rcases hfilenodes e.source hsu with ⟨nu, hnu, hnuid, hnuty⟩
      rcases hfilenodes e.target hsv with ⟨nv, hnv, hnvid, hnvty⟩
      exact ⟨⟨nu, hnu, hnuid, hnuty⟩, ⟨nv, hnv, hnvid, hnvty⟩⟩

/-- The two-file index used by the C9 witness: app.py holds a class, a
function and a from-import resolving to utils.py. -/
def c9Struct : PyStructure :=
  { files := [
      { file_path := "app.py", classes := [{ name := "App" }],
        functions := [{ name := "main" }],
        imports := [ImportInfo.fromImport "utils" "helper" none],
        docstring := some "" },
      { file_path := "utils.py", classes := [], functions := [],
        imports := [], docstring := none }],
    classes := [], functions := [], imports := [], files_parsed := 2 }

/-- C9 witness: the graph invariants applied to the concrete two-file
index, whose paths contain no :: separator. -/
theorem C9_contains_unique_imports_between_files_witness :
    (∀ fi ∈ c9Struct.files, pyStrIn "::" fi.file_path = false) ∧
    ((∀ n ∈ (build_dependency_graph c9Struct).nodes,
      (n.data.type = some "class" ∨ n.data.type = some "function") →
      ∃ fp, n.data.file = some fp ∧
        ((build_dependency_graph c9Struct).edges.filter (fun e =>
          e.source == fp && e.target == n.id &&
            e.type == "contains")).length = 1) ∧
    (∀ e ∈ (build_dependency_graph c9Struct).edges, e.type = "imports" →
      (∃ nu ∈ (build_dependency_graph c9Struct).nodes,
        nu.id = e.source ∧ nu.data.type = some "file") ∧
      (∃ nv ∈ (build_dependency_graph c9Struct).nodes,
        nv.id = e.target ∧ nv.data.type = some "file"))) :=
  ⟨by decide, C9_contains_unique_imports_between_files c9Struct (by decide)⟩
